import Mathlib

/-!
Verification of the multi-architecture image inspector (multiarch.py).

The development shallowly embeds the pipeline of the tool: the rate-limited
HTTP fetcher (make_request), the digest normalization used by the package
metadata lookup (get_digest_data), the batch deleter (batch_delete_packages),
the manifest resolver and per-tag aggregator (fetch_tag_data), the untagged
aggregator (fetch_untagged_data), the fan-out result collection of
get_image_analysis and main, and the table/JSON/CSV renderers.

HTTP is abstracted as an oracle passed to each function: a transport maps the
attempt number to a response outcome, and resolver/aggregator functions take
their already-fetched responses (or the oracle for nested fetches) as
parameters.  Wall-clock time is modelled with exact rationals, and the
Python runtime exceptions that matter to the claims (KeyError on a missing
dict key, AttributeError when list values reach dict-method calls) are
modelled with Except.
-/

/-- Result row dictionary built by the aggregators.  Python rows are dicts;
fields that some code paths leave out or set to None are modelled as Option
(slug and action are absent from child rows built by get_digest_data, and
the status of an untagged parent is pkg.get, which can be None). -/
structure Row where
  tag : String
  type : String
  platform : String
  status : Option String
  downloads : Int
  digest : Option String
  is_child : Bool
  slug : Option String
  action : Option String
deriving DecidableEq

/-- Element of a result group: either a row dict or the literal string
"SECTION" that fetch_untagged_data appends after child rows in detailed
mode. -/
inductive Entry where
  | row (r : Row)
  | sectionMark
deriving DecidableEq

/-- The platform object of one entry of a manifests array; both keys may be
absent. -/
structure PlatformJson where
  os : Option String
  architecture : Option String
deriving DecidableEq

/-- One entry of the manifests array of a manifest list. -/
structure MEntry where
  digest : Option String
  platform : Option PlatformJson
deriving DecidableEq

/-- A manifest response: either it has a manifests array, or it is a
single-architecture manifest, in which case fetch_tag_data falls back to
list(set(find_key_recursive(json, "digest"))).  The fallback digest list is
carried pre-extracted (the claims do not look inside the fallback scan). -/
inductive ManifestJson where
  | withManifests (ms : List MEntry)
  | withoutManifests (digests : List String)
deriving DecidableEq

/-- Child reference produced by the resolver: a digest together with an
os/architecture platform string. -/
structure ChildRef where
  digest : String
  platform : String
deriving DecidableEq

/-- An element of the packages API response array used by fetch_tag_data for
the parent lookup (pkg_details[0].get of status_str, slug, version). -/
structure ParentPkg where
  status_str : Option String
  slug : Option String
  version : Option String
deriving DecidableEq

/-- An untagged package record handed to fetch_untagged_data; every field is
read with dict get, so each is optional (downloads defaults to 0). -/
structure UPkg where
  version : Option String
  status_str : Option String
  downloads : Option Int
  slug : Option String
deriving DecidableEq

/-- Characters of the literal "sha256:". -/
def shaChars : List Char := ['s', 'h', 'a', '2', '5', '6', ':']

/-- Embeds the Python expression digest.replace("sha256:", "") on the
character list: str.replace removes every non-overlapping occurrence of the
pattern, scanning left to right.  The first arm fires exactly when the next
seven characters are "sha256:". -/
def stripShaAll : List Char → List Char
  | 's' :: 'h' :: 'a' :: '2' :: '5' :: '6' :: ':' :: rest => stripShaAll rest
  | c :: cs => c :: stripShaAll cs
  | [] => []

/-- Version string queried by get_digest_data for a digest:
digest.replace("sha256:", ""). -/
def get_digest_version (digest : String) : String :=
  String.mk (stripShaAll digest.data)

/-- True when the character list contains an occurrence of "sha256:". -/
def containsSha : List Char → Bool
  | [] => false
  | c :: cs => shaChars.isPrefixOf (c :: cs) || containsSha cs

/-- Embeds Python s.startswith("sha256:"). -/
def startsWithSha (s : String) : Bool := shaChars.isPrefixOf s.data

/-- ASCII lower-casing of one character, as Python str.lower acts on the
ASCII range used by architecture names. -/
def lowerChar (c : Char) : Char :=
  if 'A' ≤ c ∧ c ≤ 'Z' then Char.ofNat (c.toNat + 32) else c

/-- Embeds Python s.lower() for ASCII strings. -/
def lowerAscii (s : String) : String := String.mk (s.data.map lowerChar)

/-- Lexicographic comparison of character lists by code point, the order
Python sorted uses on strings. -/
def lexLe : List Char → List Char → Bool
  | [], _ => true
  | _ :: _, [] => false
  | a :: as, b :: bs => if a < b then true else if b < a then false else lexLe as bs

/-- String comparison used to model Python sorted on strings. -/
def strLe (a b : String) : Prop := lexLe a.data b.data = true

instance : DecidableRel strLe := fun _ _ => inferInstanceAs (Decidable (_ = true))

/-- Comparison of keyed pairs by their string key, used to model the final
sort of collected (image name, groups) results in main. -/
def keyLe {α : Type} (x y : String × α) : Prop := lexLe x.1.data y.1.data = true

instance {α : Type} : DecidableRel (@keyLe α) := fun _ _ => inferInstanceAs (Decidable (_ = true))

/-- Batch schedule of batch_delete_packages: the loop takes slices of ten
slugs; after each batch it sleeps 1.1s unless i + batch_size reached the end
of the list.  Returned are the batches in order and the number of pacing
sleeps performed.  The per-batch parallel DELETE calls and the
deleted/failed bookkeeping do not affect the schedule and are not part of
this model. -/
def batch_delete_packages : List String → List (List String) × Nat
  | [] => ([], 0)
  | a₀ :: a₁ :: a₂ :: a₃ :: a₄ :: a₅ :: a₆ :: a₇ :: a₈ :: a₉ :: rest =>
    let r := batch_delete_packages rest
    ([a₀, a₁, a₂, a₃, a₄, a₅, a₆, a₇, a₈, a₉] :: r.1,
      if rest.isEmpty then r.2 else r.2 + 1)
  | l => ([l], 0)

/-- Outcome of one HTTP attempt as seen by make_request.  Headers are
carried pre-parsed as numbers: remaining is int(X-RateLimit-Remaining),
reset is float(X-RateLimit-Reset) and retryAfter is float(Retry-After),
each None when the header is absent.  The body of a success is the parsed
JSON payload (None when json.loads would raise). -/
inductive Outcome (J : Type) where
  | success (remaining : Option Int) (reset : Option Rat) (body : Option J)
  | httpError (code : Nat) (retryAfter : Option Rat) (reset : Option Rat)
  | netError
deriving DecidableEq

/-- Return value of make_request: parsed JSON, the literal True for a
successful DELETE, or None. -/
inductive RetVal (J : Type) where
  | json (j : J)
  | boolTrue
  | null
deriving DecidableEq

/-- Sleep performed by the proactive rate-limit handling of a successful
response: when the remaining quota is below 3 and a reset header is present,
the code sleeps wait + 0.5 seconds only when 0 < wait < 30, where wait is
the time until the reset. -/
def proactiveSleep (remaining : Option Int) (reset : Option Rat) (t : Rat) : List Rat :=
  match remaining with
  | some r =>
    if r < 3 then
      match reset with
      | some rs =>
        let wait := rs - t
        if 0 < wait ∧ wait < 30 then [wait + 1/2] else []
      | none => []
    else []
  | none => []

/-- Retry loop of make_request.  fuel is the number of loop iterations left
(max_retries = 5 at the top call), a the 0-based attempt index, t the
current clock and log the sleeps performed so far.  Returns the result, the
number of attempts made, and the list of sleep durations. -/
def fetchGo {J : Type} (tr : Nat → Outcome J) (isDelete : Bool) :
    Nat → Nat → Rat → List Rat → RetVal J × Nat × List Rat
  | 0, a, _t, log => (RetVal.null, a, log)
  | fuel + 1, a, t, log =>
    match tr a with
    | Outcome.success remaining reset body =>
      let ps := proactiveSleep remaining reset t
      let res : RetVal J :=
        if isDelete then RetVal.boolTrue
        else
          match body with
          | some j => RetVal.json j
          | none => RetVal.null
      (res, a + 1, log ++ ps)
    | Outcome.httpError code retryAfter reset =>
      if code = 429 then
        let w : Rat :=
          match retryAfter with
          | some w => w
          | none =>
            match reset with
            | some rs => rs - t
            | none => (2 : Rat) ^ a
        let w2 := if w < 0 then 1 else w
        fetchGo tr isDelete fuel (a + 1) (t + w2 + 1/2) (log ++ [w2 + 1/2])
      else (RetVal.null, a + 1, log)
    | Outcome.netError => (RetVal.null, a + 1, log)

/-- make_request: up to five attempts against the transport oracle,
starting at clock t0 with an empty sleep log. -/
def make_request {J : Type} (tr : Nat → Outcome J) (isDelete : Bool) (t0 : Rat) :
    RetVal J × Nat × List Rat :=
  fetchGo tr isDelete 5 0 t0 []

/-- The os field of a manifests entry: p.get("os", "linux") where p is
m.get("platform", \x7b\x7d). -/
def entry_os (m : MEntry) : String :=
  match m.platform with
  | some p => p.os.getD "linux"
  | none => "linux"

/-- The architecture field of a manifests entry:
p.get("architecture", "unknown"). -/
def entry_arch (m : MEntry) : String :=
  match m.platform with
  | some p => p.architecture.getD "unknown"
  | none => "unknown"

/-- Platform string of a manifests entry, os/architecture. -/
def entry_plat (m : MEntry) : String := entry_os m ++ "/" ++ entry_arch m

/-- Child list built by fetch_tag_data from the manifests array: an entry
contributes iff its digest is present and truthy and
arch.lower() != "unknown". -/
def manifest_children : List MEntry → List ChildRef
  | [] => []
  | m :: rest =>
    match m.digest with
    | some dv =>
      if dv ≠ "" ∧ lowerAscii (entry_arch m) ≠ "unknown" then
        ⟨dv, entry_plat m⟩ :: manifest_children rest
      else manifest_children rest
    | none => manifest_children rest

/-- Spec-side selection predicate on a manifests entry, used to state the
amended claim C7: present non-empty digest and lower-cased architecture
different from "unknown". -/
def entrySelected (m : MEntry) : Bool :=
  match m.digest with
  | some dv => dv != "" && lowerAscii (entry_arch m) != "unknown"
  | none => false

/-- Child list of a manifest response: the manifests array is scanned when
present, otherwise every digest of the fallback scan is taken with platform
"unknown". -/
def manifest_child_list : ManifestJson → List ChildRef
  | ManifestJson.withManifests ms => manifest_children ms
  | ManifestJson.withoutManifests ds => ds.map (fun d => ⟨d, "unknown"⟩)

/-- Parent package lookup of fetch_tag_data: status, index digest and slug
from the first element of the packages response, with defaults when the
response is None or empty.  The version is given a sha256: lead when truthy
and not already carrying one. -/
def parent_info (pkg_details : Option (List ParentPkg)) : String × String × String :=
  match pkg_details with
  | some (p0 :: _) =>
    let status := p0.status_str.getD "Unknown"
    let slug := p0.slug.getD ""
    let ver := p0.version.getD ""
    let index_digest := if ver ≠ "" ∧ startsWithSha ver = false then "sha256:" ++ ver else ver
    (status, index_digest, slug)
  | _ => ("Unknown", "", "")

/-- fetch_tag_data: returns [] when the manifest fetch returned None (or a
falsy body) and when no child was resolvable; otherwise a parent row
followed, in detailed mode, by the child rows obtained through
get_digest_data (abstracted as the getDigest oracle). -/
def fetch_tag_data (mj : Option ManifestJson) (getDigest : String → String → Row)
    (pkg_details : Option (List ParentPkg)) (ntag : String) (detailed : Bool) : List Entry :=
  match mj with
  | none => []
  | some m =>
    let children := manifest_child_list m
    if children.isEmpty then []
    else
      let childrenData := children.map (fun c => getDigest c.digest c.platform)
      let total := (childrenData.map (fun r => r.downloads)).sum
      let pi := parent_info pkg_details
      Entry.row
        { tag := ntag, type := "manifest/list", platform := "multi", status := some pi.1,
          downloads := total, digest := some pi.2.1, is_child := false, slug := some pi.2.2,
          action := none }
        :: (if detailed then childrenData.map Entry.row else [])

/-- Digest of an untagged package: its version, given a sha256: lead when
truthy and not already carrying one; None when the version key is absent. -/
def untagged_digest (v : Option String) : Option String :=
  match v with
  | none => none
  | some s => if s ≠ "" ∧ startsWithSha s = false then some ("sha256:" ++ s) else some s

/-- Child collection loop of fetch_untagged_data over the manifests array:
an entry whose arch.lower() != "unknown" is appended with m["digest"], a
direct subscript that raises KeyError when the digest key is absent
(modelled as Except.error). -/
def untaggedChildren : List MEntry → Except Unit (List ChildRef)
  | [] => Except.ok []
  | m :: rest =>
    if lowerAscii (entry_arch m) ≠ "unknown" then
      match m.digest with
      | none => Except.error ()
      | some dv =>
        match untaggedChildren rest with
        | Except.error e => Except.error e
        | Except.ok cs => Except.ok (⟨dv, entry_plat m⟩ :: cs)
    else untaggedChildren rest

/-- Python " ".join(sorted(set)) over the collected platform strings. -/
def joinPlats (plats : List String) : String :=
  String.intercalate " " ((plats.dedup).insertionSort strLe)

/-- fetch_untagged_data: builds the parent row from the supplied untagged
package record, resolving its manifest only for the platform summary and,
in detailed mode, the child rows; detailed mode appends the literal
"SECTION" after the child rows.  The manifest argument is the fetched
response (None for a null or falsy body); getDigest abstracts
get_digest_data.  Returns the group and the slug, or the KeyError raised
by the child loop. -/
def fetch_untagged_data (pkg : UPkg) (mj : Option ManifestJson)
    (getDigest : String → String → Row) (detailed : Bool) :
    Except Unit (List Entry × Option String) :=
  let digest := untagged_digest pkg.version
  let status := pkg.status_str
  let downloads := pkg.downloads.getD 0
  let slug := pkg.slug
  match mj with
  | none =>
    Except.ok
      (Entry.row
          { tag := "(untagged)", type := "manifest/list", platform := "unknown", status := status,
            downloads := downloads, digest := digest, is_child := false, slug := slug,
            action := none }
        :: (if detailed then [Entry.sectionMark] else []), slug)
  | some (ManifestJson.withManifests ms) =>
    match untaggedChildren ms with
    | Except.error e => Except.error e
    | Except.ok cds =>
      let platformStr := joinPlats (ms.map entry_plat)
      Except.ok
        (Entry.row
            { tag := "(untagged)", type := "manifest/list", platform := platformStr,
              status := status, downloads := downloads, digest := digest, is_child := false,
              slug := slug, action := none }
          :: (if detailed then
                (cds.map (fun c => Entry.row (getDigest c.digest c.platform)))
                  ++ [Entry.sectionMark]
              else []), slug)
  | some (ManifestJson.withoutManifests _) =>
    Except.ok
      (Entry.row
          { tag := "(untagged)", type := "manifest/list", platform := "unknown", status := status,
            downloads := downloads, digest := digest, is_child := false, slug := slug,
            action := none }
        :: (if detailed then [Entry.sectionMark] else []), slug)

/-- Tag list preparation of get_image_analysis:
sorted(list(set(flat_tags))). -/
def sortedTags (raw : List String) : List String :=
  (raw.dedup).insertionSort strLe

/-- Result collection of get_image_analysis: workers complete in the order
given by completion (a permutation of the tags whose futures returned); the
results dict keyed by tag is modelled as an association list, and groups
are appended by walking the sorted tag list and keeping the tags present in
the dict. -/
def lookupResult {α : Type} (completion : List String) (res : String → α) (t : String) :
    Option α :=
  ((completion.map (fun s => (s, res s))).find? (fun p => p.1 == t)).map (fun p => p.2)

/-- Group list returned by get_image_analysis for one image, given the raw
tag list, the completion order of the per-tag workers and the per-tag
result function.  The deletion pass of get_image_analysis leaves the group
list unchanged when no deletion is requested and is not modelled. -/
def imageGroups (raw completion : List String) (res : String → List Entry) :
    List (List Entry) :=
  (sortedTags raw).filterMap (lookupResult completion res)

/-- Final ordering of main: collected_results.sort(key=lambda x: x[0]). -/
def sortCollected {α : Type} (c : List (String × α)) : List (String × α) :=
  c.insertionSort keyLe

/-- Rows rendered by render_table for one group: the parent row group[0],
then each element of group[1:] that is a dict (the literal "SECTION" only
adds a visual separator).  Empty groups are skipped.  A group whose head is
the "SECTION" literal never occurs in the program and contributes no
row. -/
def tableRowsOfGroup : List Entry → List Row
  | [] => []
  | e :: rest =>
    (match e with
      | Entry.row r => [r]
      | Entry.sectionMark => [])
      ++ rest.filterMap (fun x =>
        match x with
        | Entry.row r => some r
        | Entry.sectionMark => none)

/-- All rows the table output renders across the groups of one image. -/
def tableRows (groups : List (List Entry)) : List Row :=
  (groups.map tableRowsOfGroup).flatten

/-- CSV emission loop over the groups of one image: the code iterates the
top-level group list, compares each group to the string "SECTION" (never
true, a list is not a string) and then calls group.get(...) on the list,
which raises AttributeError.  So any image with at least one group aborts
the CSV output. -/
def csvGroupLines : String → List (List Entry) → Except String (List (List String))
  | _, [] => Except.ok []
  | _, _ :: _ => Except.error "AttributeError"

/-- CSV body for all collected images. -/
def csvAll : List (String × List (List Entry)) → Except String (List (List String))
  | [] => Except.ok []
  | (img, gs) :: rest =>
    match csvGroupLines img gs with
    | Except.error e => Except.error e
    | Except.ok l =>
      match csvAll rest with
      | Except.error e => Except.error e
      | Except.ok r => Except.ok (l ++ r)

/-- CSV output of main: header row then the body lines, or the
AttributeError that aborts the output. -/
def csvRender (collected : List (String × List (List Entry))) :
    Except String (List (List String)) :=
  match csvAll collected with
  | Except.error e => Except.error e
  | Except.ok ls =>
    Except.ok (["Image", "Tag", "Type", "Platform", "Status", "Downloads", "Digest", "Action"] :: ls)

/-- JSON output of main: json.dumps of the dict keyed by image name holding
the group lists verbatim, modelled as the identity on the collected data
(every group and every row is serialized). -/
def jsonRender (collected : List (String × List (List Entry))) :
    List (String × List (List Entry)) :=
  collected

/-- Strict key comparison on pairs: key below and different.  On lists with
pairwise distinct keys, sortedness for keyLe upgrades to sortedness for this
antisymmetric relation. -/
def keyLeNe {α : Type} (x y : String × α) : Prop := keyLe x y ∧ x.1 ≠ y.1

/-- Concrete get_digest_data oracle used by the concrete evaluations. -/
def gRow : String → String → Row := fun d p =>
  { tag := "t", type := "image", platform := p, status := some "Completed", downloads := 3,
    digest := some d, is_child := true, slug := none, action := none }

/-- Concrete untagged package record. -/
def pkg0 : UPkg :=
  { version := some "abc", status_str := some "Completed", downloads := some 7,
    slug := some "slg" }

/-- Manifests entry with architecture "Unknown" (capital u) and a digest. -/
def archUnknownCap : MEntry := ⟨some "sha256:x", some ⟨some "linux", some "Unknown"⟩⟩

/-- Manifests entry with architecture "amd64" but no digest key. -/
def noDigestAmd : MEntry := ⟨none, some ⟨some "linux", some "amd64"⟩⟩

/-- Manifests entry with a digest and architecture "arm64". -/
def okEntry : MEntry := ⟨some "sha256:y", some ⟨some "linux", some "arm64"⟩⟩

/-- Twenty-three distinct slugs. -/
def slugs23 : List String := (List.range 23).map (fun n => toString n)

/-- Transport that answers 429 on the first three attempts and success with
a JSON body afterwards. -/
def c3transport : Nat → Outcome String := fun i =>
  if i < 3 then Outcome.httpError 429 (some 1) none
  else Outcome.success none none (some "body")

/-- Transport whose every response is successful with 2 remaining requests
and a rate-limit reset 40 seconds after clock 0. -/
def tr40 : Nat → Outcome String := fun _ => Outcome.success (some 2) (some 40) (some "body")

/-- Per-tag results where tag "a" has a null manifest response and tag "b"
resolves to a one-entry manifest list. -/
def res2 : String → List Entry := fun t =>
  if t = "b" then
    fetch_tag_data (some (ManifestJson.withManifests [okEntry])) gRow none t false
  else fetch_tag_data none gRow none t false

/-- Parent row of the sample collected results. -/
def sampleParent : Row :=
  { tag := "v1", type := "manifest/list", platform := "multi", status := some "Completed",
    downloads := 8, digest := some "sha256:abc", is_child := false, slug := some "abc",
    action := none }

/-- Per-tag result function used by the order-invariance witness. -/
def resW : String → List Entry := fun t =>
  [Entry.row
    { tag := t, type := "manifest/list", platform := "multi", status := some "Completed",
      downloads := 0, digest := some "d", is_child := false, slug := some "s", action := none }]

/-! ## Helper lemmas -/

theorem strEqOfData {a b : String} (h : a.data = b.data) : a = b := by
  cases a
  cases b
  exact congrArg String.mk h

theorem lexLe_total : ∀ as bs : List Char, lexLe as bs = true ∨ lexLe bs as = true := by
  intro as
  induction as with
  | nil => intro bs; left; rfl
  | cons a as ih =>
    intro bs
    cases bs with
    | nil => right; rfl
    | cons b bs =>
      rcases lt_trichotomy a b with h | h | h
      · left; simp [lexLe, h]
      · subst h
        rcases ih bs with h2 | h2
        · left; simp [lexLe, h2]
        · right; simp [lexLe, h2]
      · right; simp [lexLe, h]

theorem lexLe_trans :
    ∀ as bs cs : List Char, lexLe as bs = true → lexLe bs cs = true → lexLe as cs = true := by
  intro as
  induction as with
  | nil => intro bs cs _ _; rfl
  | cons a as ih =>
    intro bs cs h1 h2
    cases bs with
    | nil => simp [lexLe] at h1
    | cons b bs =>
      cases cs with
      | nil => simp [lexLe] at h2
      | cons c cs =>
        rcases lt_trichotomy a b with hab | hab | hab
        · rcases lt_trichotomy b c with hbc | hbc | hbc
          · have hac : a < c := lt_trans hab hbc
            simp [lexLe, hac]
          · subst hbc; simp [lexLe, hab]
          · simp [lexLe, hbc, lt_asymm hbc] at h2
        · subst hab
          simp only [lexLe, lt_irrefl, if_false] at h1
          rcases lt_trichotomy a c with hac | hac | hac
          · simp [lexLe, hac]
          · subst hac
            simp only [lexLe, lt_irrefl, if_false] at h2 ⊢
            exact ih bs cs h1 h2
          · simp [lexLe, hac, lt_asymm hac] at h2
        · simp [lexLe, hab, lt_asymm hab] at h1

theorem lexLe_antisymm :
    ∀ as bs : List Char, lexLe as bs = true → lexLe bs as = true → as = bs := by
  intro as
  induction as with
  | nil =>
    intro bs h1 h2
    cases bs with
    | nil => rfl
    | cons b bs => simp [lexLe] at h2
  | cons a as ih =>
    intro bs h1 h2
    cases bs with
    | nil => simp [lexLe] at h1
    | cons b bs =>
      rcases lt_trichotomy a b with hab | hab | hab
      · simp [lexLe, hab, lt_asymm hab] at h2
      · subst hab
        simp only [lexLe, lt_irrefl, if_false] at h1 h2
        rw [ih bs h1 h2]
      · simp [lexLe, hab, lt_asymm hab] at h1

theorem stripShaAll_sha_cons (d : List Char) :
    stripShaAll ('s' :: 'h' :: 'a' :: '2' :: '5' :: '6' :: ':' :: d) = stripShaAll d := by
  simp [stripShaAll]

theorem stripShaAll_cons_of_no_match (c : Char) (cs : List Char)
    (h : shaChars.isPrefixOf (c :: cs) = false) :
    stripShaAll (c :: cs) = c :: stripShaAll cs := by
  rw [stripShaAll.eq_def]
  split <;> simp_all [shaChars, List.isPrefixOf]

theorem stripShaAll_id : ∀ l : List Char, containsSha l = false → stripShaAll l = l := by
  intro l
  induction l using stripShaAll.induct with
  | case1 rest ih =>
    intro h
    simp [containsSha, shaChars, List.isPrefixOf] at h
  | case2 c cs hno ih =>
    intro h
    simp only [containsSha, Bool.or_eq_false_iff] at h
    rw [stripShaAll_cons_of_no_match c cs h.1, ih h.2]
  | case3 => intro _; rfl

theorem batch_no_split_len (l : List String)
    (h10 : ∀ (a₀ a₁ a₂ a₃ a₄ a₅ a₆ a₇ a₈ a₉ : String) (rest : List String),
      l = a₀ :: a₁ :: a₂ :: a₃ :: a₄ :: a₅ :: a₆ :: a₇ :: a₈ :: a₉ :: rest → False) :
    l.length < 10 := by
  rcases l with _ | ⟨b₀, _ | ⟨b₁, _ | ⟨b₂, _ | ⟨b₃, _ | ⟨b₄, _ | ⟨b₅, _ | ⟨b₆, _ | ⟨b₇, _ |
    ⟨b₈, _ | ⟨b₉, rest⟩⟩⟩⟩⟩⟩⟩⟩⟩⟩ <;>
    first
      | exact (h10 _ _ _ _ _ _ _ _ _ _ _ rfl).elim
      | simp

theorem batch_delete_packages_small (l : List String) (h0 : l ≠ [])
    (h10 : ∀ (a₀ a₁ a₂ a₃ a₄ a₅ a₆ a₇ a₈ a₉ : String) (rest : List String),
      l = a₀ :: a₁ :: a₂ :: a₃ :: a₄ :: a₅ :: a₆ :: a₇ :: a₈ :: a₉ :: rest → False) :
    batch_delete_packages l = ([l], 0) := by
  rw [batch_delete_packages.eq_def]
  split
  · exact absurd rfl h0
  · rename_i a₀ a₁ a₂ a₃ a₄ a₅ a₆ a₇ a₈ a₉ rest
    exact absurd rfl (h10 a₀ a₁ a₂ a₃ a₄ a₅ a₆ a₇ a₈ a₉ rest)
  · rfl

/-! ## C5: digest normalization -/

/-- C5 counterexample: the normalization of get_digest_data is
digest.replace("sha256:", ""), which removes interior occurrences too.  On
the string "xsha256:y", which does not start with "sha256:", it is not the
identity, and on "sha256:sha256:abc" it strips more than one leading
occurrence. -/
theorem c5_normalization_counterexample :
    get_digest_version "xsha256:y" = "xy" ∧ "xy" ≠ "xsha256:y" ∧
    startsWithSha "xsha256:y" = false ∧
    get_digest_version "sha256:sha256:abc" = "abc" ∧ "abc" ≠ "sha256:abc" := by
  decide

/-- C5 amended: the lookup normalization maps a digest with one added
"sha256:" lead to the same query value as the bare digest, and it is the
identity on every string with no occurrence of "sha256:" at all (rather
than on every string that merely does not start with it). -/
theorem c5_normalization_amended :
    (∀ d : String, get_digest_version ("sha256:" ++ d) = get_digest_version d)
    ∧ (∀ d : String, containsSha d.data = false → get_digest_version d = d) := by
  constructor
  · intro d
    unfold get_digest_version
    have hdata : ("sha256:" ++ d).data = 's' :: 'h' :: 'a' :: '2' :: '5' :: '6' :: ':' :: d.data := by
      simp [String.data_append]
    rw [hdata, stripShaAll_sha_cons]
  · intro d h
    unfold get_digest_version
    rw [stripShaAll_id d.data h]

/-- Witness for C5: both parts of the amended claim at the concrete digest
"deadbeef". -/
theorem c5_normalization_amended_witness :
    get_digest_version ("sha256:" ++ "deadbeef") = get_digest_version "deadbeef" ∧
    get_digest_version "deadbeef" = "deadbeef" :=
  ⟨c5_normalization_amended.1 "deadbeef", c5_normalization_amended.2 "deadbeef" (by decide)⟩

/-! ## C6: batch deletion schedule -/

/-- C6: for a non-empty slug list the deleter performs ceil(n/10) batches
and one pacing sleep fewer (no sleep after the last batch), the batches
concatenate back to the slug list, and every batch except the last has
exactly ten slugs; for the concrete 23-slug list the batch sizes are 10,
10, 3 with exactly 2 sleeps. -/
theorem c6_batch_schedule :
    (∀ slugs : List String, slugs ≠ [] →
      (batch_delete_packages slugs).1.length = (slugs.length + 9) / 10 ∧
      (batch_delete_packages slugs).2 = (slugs.length + 9) / 10 - 1 ∧
      (batch_delete_packages slugs).1.flatten = slugs ∧
      (∀ b ∈ (batch_delete_packages slugs).1.dropLast, b.length = 10))
    ∧ (batch_delete_packages slugs23).1.map List.length = [10, 10, 3]
    ∧ (batch_delete_packages slugs23).2 = 2 := by
  refine ⟨?_, by decide, by decide⟩
  intro slugs
  induction slugs using batch_delete_packages.induct with
  | case1 => intro h; exact absurd rfl h
  | case2 a₀ a₁ a₂ a₃ a₄ a₅ a₆ a₇ a₈ a₉ rest ih =>
    intro _
    by_cases hr : rest = []
    · subst hr
      refine ⟨by simp [batch_delete_packages], by simp [batch_delete_packages],
        by simp [batch_delete_packages], ?_⟩
      simp [batch_delete_packages]
    · obtain ⟨ihl, ihs, ihj, ihd⟩ := ih hr
      have hrpos : 0 < rest.length := List.length_pos.mpr hr
      have hbne : (batch_delete_packages rest).1 ≠ [] := by
        intro he
        rw [he] at ihl
        simp at ihl
        omega
      refine ⟨?_, ?_, ?_, ?_⟩
      · simp only [batch_delete_packages, List.length_cons, ihl]
        omega
      · simp only [batch_delete_packages, List.isEmpty_eq_true, hr, if_false, ihs,
          List.length_cons]
        omega
      · simp only [batch_delete_packages, List.flatten_cons, ihj]
        rfl
      · intro b hb
        simp only [batch_delete_packages] at hb
        rw [List.dropLast_cons_of_ne_nil hbne] at hb
        rcases List.mem_cons.mp hb with hb | hb
        · subst hb; rfl
        · exact ihd b hb
  | case3 l h0 h10 =>
    intro _
    have hlt : l.length < 10 := batch_no_split_len l h10
    have hpos : 0 < l.length := List.length_pos.mpr (fun he => h0 he)
    rw [batch_delete_packages_small l (fun he => h0 he) h10]
    refine ⟨?_, ?_, by simp, by simp⟩
    · simp only [List.length_cons, List.length_nil]
      omega
    · simp only []
      omega

/-- Witness for C6: the general schedule theorem applied to the 23-slug
list. -/
theorem c6_batch_schedule_witness :
    slugs23 ≠ [] ∧
    (batch_delete_packages slugs23).1.length = (slugs23.length + 9) / 10 ∧
    (batch_delete_packages slugs23).2 = (slugs23.length + 9) / 10 - 1 :=
  ⟨by decide, (c6_batch_schedule.1 slugs23 (by decide)).1,
    (c6_batch_schedule.1 slugs23 (by decide)).2.1⟩

/-! ## C7: manifest child selection -/

/-- C7 counterexample: an entry with architecture "Unknown" (different from
the string "unknown") is still excluded because the code lower-cases the
architecture, and an entry with architecture "amd64" but no digest key is
excluded because the code also requires a truthy digest; the claim predicts
one child in each case. -/
theorem c7_children_counterexample :
    manifest_children [archUnknownCap] = [] ∧ entry_arch archUnknownCap ≠ "unknown" ∧
    manifest_children [noDigestAmd] = [] ∧ entry_arch noDigestAmd ≠ "unknown" := by
  decide

/-- C7 amended: the child list has exactly one entry per manifests entry
whose digest is present and non-empty and whose lower-cased architecture is
not "unknown", and every child carries the digest and os/architecture
platform string of its entry. -/
theorem c7_children_amended :
    (∀ ms : List MEntry, (manifest_children ms).length = ms.countP entrySelected)
    ∧ (∀ (ms : List MEntry) (c : ChildRef), c ∈ manifest_children ms →
        ∃ m ∈ ms, m.digest = some c.digest ∧ c.platform = entry_plat m) := by
  constructor
  · intro ms
    induction ms with
    | nil => rfl
    | cons m rest ih =>
      cases hm : m.digest with
      | none => simp [manifest_children, hm, List.countP_cons, entrySelected, ih]
      | some dv =>
        by_cases hcond : dv ≠ "" ∧ lowerAscii (entry_arch m) ≠ "unknown"
        · simp [manifest_children, hm, List.countP_cons, entrySelected, hcond, ih,
            bne_iff_ne, hcond.1, hcond.2]
        · have hsel : entrySelected m = false := by
            rcases eq_or_ne dv "" with hdv | hdv
            · simp [entrySelected, hm, hdv]
            · have hlow : lowerAscii (entry_arch m) = "unknown" := by
                by_contra hlo
                exact hcond ⟨hdv, hlo⟩
              simp [entrySelected, hm, hlow]
          simp [manifest_children, hm, if_neg hcond, List.countP_cons, hsel, ih]
  · intro ms
    induction ms with
    | nil => intro c hc; simp [manifest_children] at hc
    | cons m rest ih =>
      intro c hc
      cases hm : m.digest with
      | none =>
        simp only [manifest_children, hm] at hc
        obtain ⟨m2, hm2, hd, hp⟩ := ih c hc
        exact ⟨m2, List.mem_cons_of_mem m hm2, hd, hp⟩
      | some dv =>
        simp only [manifest_children, hm] at hc
        by_cases hcond : dv ≠ "" ∧ lowerAscii (entry_arch m) ≠ "unknown"
        · rw [if_pos hcond] at hc
          rcases List.mem_cons.mp hc with hc | hc
          · subst hc
            exact ⟨m, List.mem_cons_self m rest, by simp [hm], rfl⟩
          · obtain ⟨m2, hm2, hd, hp⟩ := ih c hc
            exact ⟨m2, List.mem_cons_of_mem m hm2, hd, hp⟩
        · rw [if_neg hcond] at hc
          obtain ⟨m2, hm2, hd, hp⟩ := ih c hc
          exact ⟨m2, List.mem_cons_of_mem m hm2, hd, hp⟩

/-- Witness for C7: the amended claim at a one-entry manifests array with a
digest and architecture "arm64". -/
theorem c7_children_amended_witness :
    (manifest_children [okEntry]).length = List.countP entrySelected [okEntry] ∧
    (∃ m ∈ [okEntry], m.digest = some "sha256:y" ∧ "linux/arm64" = entry_plat m) :=
  ⟨c7_children_amended.1 [okEntry],
    c7_children_amended.2 [okEntry] ⟨"sha256:y", "linux/arm64"⟩ (by decide)⟩

/-! ## C3 and C4: rate-limited fetcher -/

theorem fetchGo_indep {J : Type} (tr : Nat → Outcome J) (d : Bool) :
    ∀ (fuel a : Nat) (t₁ : Rat) (log₁ : List Rat) (t₂ : Rat) (log₂ : List Rat),
      (fetchGo tr d fuel a t₁ log₁).1 = (fetchGo tr d fuel a t₂ log₂).1 ∧
      (fetchGo tr d fuel a t₁ log₁).2.1 = (fetchGo tr d fuel a t₂ log₂).2.1 := by
  intro fuel
  induction fuel with
  | zero => exact fun a t₁ log₁ t₂ log₂ => ⟨rfl, rfl⟩
  | succ n ih =>
    intro a t₁ log₁ t₂ log₂
    cases htr : tr a with
    | success rem rst body => simp [fetchGo, htr]
    | httpError code ra rs =>
      by_cases hc : code = 429
      · subst hc
        simp only [fetchGo, htr, if_pos rfl]
        exact ih (a + 1) _ _ _ _
      · simp [fetchGo, htr, hc]
    | netError => simp [fetchGo, htr]

theorem fetchGo_429_step {J : Type} (tr : Nat → Outcome J) (d : Bool) (fuel a : Nat) (t : Rat)
    (log : List Rat) (ra rs : Option Rat) (h : tr a = Outcome.httpError 429 ra rs) :
    (fetchGo tr d (fuel + 1) a t log).1 = (fetchGo tr d fuel (a + 1) 0 []).1 ∧
    (fetchGo tr d (fuel + 1) a t log).2.1 = (fetchGo tr d fuel (a + 1) 0 []).2.1 := by
  simp only [fetchGo, h, if_pos rfl]
  exact ⟨(fetchGo_indep tr d fuel (a + 1) _ _ 0 []).1,
    (fetchGo_indep tr d fuel (a + 1) _ _ 0 []).2⟩

/-- C3: a transport answering 429 on the first three attempts and a 200
with a JSON body on the fourth makes make_request perform exactly 4
attempts and return the parsed body of the fourth response; five
consecutive 429 responses exhaust the 5-attempt budget and make_request
returns None. -/
theorem c3_retry_loop :
    (∀ {J : Type} (tr : Nat → Outcome J) (t0 : Rat) (rem : Option Int) (rst : Option Rat)
      (j : J),
      (∀ i, i < 3 → ∃ ra rs, tr i = Outcome.httpError 429 ra rs) →
      tr 3 = Outcome.success rem rst (some j) →
      (make_request tr false t0).1 = RetVal.json j ∧ (make_request tr false t0).2.1 = 4)
    ∧ (∀ {J : Type} (tr : Nat → Outcome J) (t0 : Rat),
      (∀ i, i < 5 → ∃ ra rs, tr i = Outcome.httpError 429 ra rs) →
      (make_request tr false t0).1 = RetVal.null ∧ (make_request tr false t0).2.1 = 5) := by
  constructor
  · intro J tr t0 rem rst j h429 hsucc
    obtain ⟨ra0, rs0, h0⟩ := h429 0 (by norm_num)
    obtain ⟨ra1, rs1, h1⟩ := h429 1 (by norm_num)
    obtain ⟨ra2, rs2, h2⟩ := h429 2 (by norm_num)
    have s0 := fetchGo_429_step tr false 4 0 t0 [] ra0 rs0 h0
    have s1 := fetchGo_429_step tr false 3 1 0 [] ra1 rs1 h1
    have s2 := fetchGo_429_step tr false 2 2 0 [] ra2 rs2 h2
    have hfin : (fetchGo tr false 2 3 (0 : Rat) []).1 = RetVal.json j ∧
        (fetchGo tr false 2 3 (0 : Rat) []).2.1 = 4 := by
      simp [fetchGo, hsucc]
    unfold make_request
    exact ⟨by rw [s0.1, s1.1, s2.1, hfin.1], by rw [s0.2, s1.2, s2.2, hfin.2]⟩
  · intro J tr t0 h429
    obtain ⟨ra0, rs0, h0⟩ := h429 0 (by norm_num)
    obtain ⟨ra1, rs1, h1⟩ := h429 1 (by norm_num)
    obtain ⟨ra2, rs2, h2⟩ := h429 2 (by norm_num)
    obtain ⟨ra3, rs3, h3⟩ := h429 3 (by norm_num)
    obtain ⟨ra4, rs4, h4⟩ := h429 4 (by norm_num)
    have s0 := fetchGo_429_step tr false 4 0 t0 [] ra0 rs0 h0
    have s1 := fetchGo_429_step tr false 3 1 0 [] ra1 rs1 h1
    have s2 := fetchGo_429_step tr false 2 2 0 [] ra2 rs2 h2
    have s3 := fetchGo_429_step tr false 1 3 0 [] ra3 rs3 h3
    have s4 := fetchGo_429_step tr false 0 4 0 [] ra4 rs4 h4
    unfold make_request
    exact ⟨by rw [s0.1, s1.1, s2.1, s3.1, s4.1]; rfl,
      by rw [s0.2, s1.2, s2.2, s3.2, s4.2]; rfl⟩

/-- Witness for C3: the transport that answers 429 three times and then a
success with body "body". -/
theorem c3_retry_loop_witness :
    (make_request c3transport false 0).1 = RetVal.json "body" ∧
    (make_request c3transport false 0).2.1 = 4 :=
  c3_retry_loop.1 c3transport 0 none none "body"
    (fun i hi => ⟨some 1, none, by simp [c3transport, hi]⟩)
    (by simp [c3transport])

/-- C4 counterexample: a successful response with 2 remaining requests and
a reset 40 seconds away (more than 30) causes no sleep at all, where the
claim predicts a 30-second sleep. -/
theorem c4_throttle_counterexample :
    (make_request tr40 false 0).2.2 = [] ∧ (make_request tr40 false 0).1 = RetVal.json "body" := by
  have h1 : ¬((0 : Rat) < 40 - 0 ∧ (40 : Rat) - 0 < 30) := by norm_num
  simp [make_request, fetchGo, tr40, proactiveSleep, h1]
  norm_num

/-- C4 amended: on a successful response carrying remaining below 3 and a
reset header, make_request sleeps wait + 0.5 seconds where wait is the time
until reset, and only when 0 < wait < 30; when the wait reaches 30 seconds
or more (or is not positive) no sleep occurs. -/
theorem c4_throttle_amended :
    ∀ (rem : Int) (rs t0 : Rat) (body : Option String), rem < 3 →
      (make_request (fun _ => Outcome.success (some rem) (some rs) body) false t0).2.2 =
        (if 0 < rs - t0 ∧ rs - t0 < 30 then [rs - t0 + 1/2] else []) := by
  intro rem rs t0 body h
  simp [make_request, fetchGo, proactiveSleep, h]

/-- Witness for C4: remaining 2, reset 10 seconds after clock 0; the sleep
performed is 10.5 seconds. -/
theorem c4_throttle_amended_witness :
    (make_request (fun _ => Outcome.success (some 2) (some 10) (some "b")) false 0).2.2 =
      [21/2] := by
  rw [c4_throttle_amended 2 10 0 (some "b") (by norm_num)]
  rw [if_pos (by norm_num)]
  norm_num

/-! ## C2 and C9: group collection and ordering -/

theorem find?_map_self {α : Type} (res : String → α) :
    ∀ (completion : List String) (t : String), t ∈ completion →
      (completion.map (fun s => (s, res s))).find? (fun p => p.1 == t) = some (t, res t) := by
  intro completion
  induction completion with
  | nil => intro t ht; simp at ht
  | cons c cs ih =>
    intro t ht
    by_cases hc : c = t
    · subst hc
      simp only [List.map_cons]
      rw [List.find?_cons_of_pos _ (by simp)]
    · have ht2 : t ∈ cs := by
        rcases List.mem_cons.mp ht with h | h
        · exact absurd h.symm hc
        · exact h
      simp only [List.map_cons]
      rw [List.find?_cons_of_neg _ (by simp [hc]), ih t ht2]

theorem imageGroups_eq_map (raw completion : List String) (res : String → List Entry)
    (h : completion.Perm (sortedTags raw)) :
    imageGroups raw completion res = (sortedTags raw).map res := by
  unfold imageGroups
  have hmem : ∀ t ∈ sortedTags raw, t ∈ completion := fun t ht => h.mem_iff.mpr ht
  clear h
  revert hmem
  generalize sortedTags raw = ts
  intro hmem
  induction ts with
  | nil => rfl
  | cons t ts ih =>
    have h1 : lookupResult completion res t = some (res t) := by
      unfold lookupResult
      rw [find?_map_self res completion t (hmem t (List.mem_cons_self t ts))]
      rfl
    simp only [List.filterMap_cons, h1, List.map_cons]
    rw [ih (fun u hu => hmem u (List.mem_cons_of_mem t hu))]

theorem sortCollected_eq {α : Type} (c₁ c₂ : List (String × α)) (hp : c₁.Perm c₂)
    (hnd : (c₁.map Prod.fst).Nodup) : sortCollected c₁ = sortCollected c₂ := by
  haveI htot : IsTotal (String × α) keyLe := ⟨fun x y => lexLe_total x.1.data y.1.data⟩
  haveI htr : IsTrans (String × α) keyLe := ⟨fun x y z => lexLe_trans x.1.data y.1.data z.1.data⟩
  haveI hasym : IsAntisymm (String × α) keyLeNe :=
    ⟨fun x y h h2 => (h.2 (strEqOfData (lexLe_antisymm x.1.data y.1.data h.1 h2.1))).elim⟩
  have p₁ : (sortCollected c₁).Perm c₁ := List.perm_insertionSort keyLe c₁
  have p₂ : (sortCollected c₂).Perm c₂ := List.perm_insertionSort keyLe c₂
  have s₁ : (sortCollected c₁).Sorted keyLe := List.sorted_insertionSort keyLe c₁
  have s₂ : (sortCollected c₂).Sorted keyLe := List.sorted_insertionSort keyLe c₂
  have hnd₁ : ((sortCollected c₁).map Prod.fst).Nodup := ((p₁.map Prod.fst).nodup_iff).mpr hnd
  have hnd₂ : ((sortCollected c₂).map Prod.fst).Nodup :=
    ((p₂.map Prod.fst).nodup_iff).mpr (((hp.map Prod.fst).nodup_iff).mp hnd)
  have ne₁ : (sortCollected c₁).Pairwise (fun x y => x.1 ≠ y.1) := List.pairwise_map.mp hnd₁
  have ne₂ : (sortCollected c₂).Pairwise (fun x y => x.1 ≠ y.1) := List.pairwise_map.mp hnd₂
  have t₁ : (sortCollected c₁).Sorted keyLeNe := s₁.and ne₁
  have t₂ : (sortCollected c₂).Sorted keyLeNe := s₂.and ne₂
  exact List.eq_of_perm_of_sorted (p₁.trans (hp.trans p₂.symm)) t₁ t₂

/-- C2 counterexample: with tags a and b where the manifest fetch of a
returns None, the per-image group list still has one group per tag (an
empty group is appended for a), not one group fewer and not only
non-empty groups. -/
theorem c2_empty_group_counterexample :
    (imageGroups ["a", "b"] ["b", "a"] res2).length = 2 ∧
    (sortedTags ["a", "b"]).length = 2 ∧
    [] ∈ imageGroups ["a", "b"] ["b", "a"] res2 ∧
    res2 "a" = [] := by
  decide

/-- C2 amended: a tag whose manifest fetch returns None yields the empty
list from fetch_tag_data, and get_image_analysis appends that empty group
to the group list, whose length therefore equals the number of (sorted,
deduplicated) tags whose workers completed; empty groups are skipped only
later, by the renderers and the deletion pass. -/
theorem c2_null_manifest_amended :
    (∀ (gd : String → String → Row) (pd : Option (List ParentPkg)) (t : String) (det : Bool),
      fetch_tag_data none gd pd t det = [])
    ∧ (∀ (raw completion : List String) (res : String → List Entry),
      completion.Perm (sortedTags raw) →
      (imageGroups raw completion res).length = (sortedTags raw).length) := by
  refine ⟨fun _ _ _ _ => rfl, fun raw completion res h => ?_⟩
  rw [imageGroups_eq_map raw completion res h, List.length_map]

/-- Witness for C2: the amended claim at the two-tag configuration of the
counterexample. -/
theorem c2_null_manifest_amended_witness :
    fetch_tag_data none gRow none "x" false = [] ∧
    (imageGroups ["a", "b"] ["b", "a"] res2).length = (sortedTags ["a", "b"]).length :=
  ⟨c2_null_manifest_amended.1 gRow none "x" false,
    c2_null_manifest_amended.2 ["a", "b"] ["b", "a"] res2 (by decide)⟩

/-- C9: the group list of one image is the per-tag results in sorted
deduplicated tag order whenever the workers all completed, whatever their
completion order; and the final per-image ordering of main is invariant
under the completion order of the image workers when image names are
distinct. -/
theorem c9_deterministic_order :
    (∀ (raw completion : List String) (res : String → List Entry),
      completion.Perm (sortedTags raw) →
      imageGroups raw completion res = (sortedTags raw).map res)
    ∧ (∀ (c₁ c₂ : List (String × List (List Entry))),
      c₁.Perm c₂ → (c₁.map Prod.fst).Nodup → sortCollected c₁ = sortCollected c₂) :=
  ⟨imageGroups_eq_map, fun c₁ c₂ => sortCollected_eq c₁ c₂⟩

/-- Witness for C9: two completion orders of the same two tags produce the
group list in sorted tag order, and two arrival orders of the same two
images sort identically. -/
theorem c9_deterministic_order_witness :
    imageGroups ["b", "a", "b"] ["b", "a"] resW = (sortedTags ["b", "a", "b"]).map resW ∧
    sortCollected [("b", ([[]] : List (List Entry))), ("a", [[Entry.sectionMark]])] =
      sortCollected [("a", [[Entry.sectionMark]]), ("b", ([[]] : List (List Entry)))] :=
  ⟨c9_deterministic_order.1 ["b", "a", "b"] ["b", "a"] resW (by decide),
    c9_deterministic_order.2 _ _ (by decide) (by decide)⟩

/-! ## C8 and C10: untagged aggregator -/

/-- C8: when the manifest fetch of an untagged package returns None, the
aggregator still returns a group led by a parent row that keeps the
status, downloads (default 0), slug and digest of the record (the digest
being the version of the record in its canonical sha256-prefixed form) and
whose platform is "unknown". -/
theorem c8_untagged_parent_row :
    ∀ (pkg : UPkg) (g : String → String → Row) (detailed : Bool),
      fetch_untagged_data pkg none g detailed =
        Except.ok
          (Entry.row
              { tag := "(untagged)", type := "manifest/list", platform := "unknown",
                status := pkg.status_str, downloads := pkg.downloads.getD 0,
                digest := untagged_digest pkg.version, is_child := false, slug := pkg.slug,
                action := none }
            :: (if detailed then [Entry.sectionMark] else []), pkg.slug) :=
  fun _ _ _ => rfl

/-- C10: every group the untagged aggregator returns in detailed mode ends
with the literal "SECTION", an element that is not a row record. -/
theorem c10_untagged_section_literal :
    ∀ (pkg : UPkg) (mj : Option ManifestJson) (g : String → String → Row)
      (rows : List Entry) (s : Option String),
      fetch_untagged_data pkg mj g true = Except.ok (rows, s) →
      rows.getLast? = some Entry.sectionMark ∧ Entry.sectionMark ∈ rows := by
  intro pkg mj g rows s h
  cases mj with
  | none =>
    simp only [fetch_untagged_data, if_pos trivial, Except.ok.injEq, Prod.mk.injEq] at h
    rw [← h.1]
    exact ⟨rfl, by simp⟩
  | some mjv =>
    cases mjv with
    | withManifests ms =>
      simp only [fetch_untagged_data] at h
      cases hc : untaggedChildren ms with
      | error e => rw [hc] at h; simp at h
      | ok cds =>
        rw [hc] at h
        simp only [if_pos trivial, Except.ok.injEq, Prod.mk.injEq] at h
        rw [← h.1]
        constructor
        · rw [show ∀ (x : Entry) (l : List Entry) (y : Entry), x :: (l ++ [y]) = (x :: l) ++ [y]
            from fun _ _ _ => rfl]
          exact List.getLast?_concat _
        · simp
    | withoutManifests ds =>
      simp only [fetch_untagged_data, if_pos trivial, Except.ok.injEq, Prod.mk.injEq] at h
      rw [← h.1]
      exact ⟨rfl, by simp⟩

/-- Witness for C10: the concrete untagged record with a null manifest
response in detailed mode. -/
theorem c10_untagged_section_literal_witness :
    ([Entry.row
        { tag := "(untagged)", type := "manifest/list", platform := "unknown",
          status := some "Completed", downloads := 7, digest := some "sha256:abc",
          is_child := false, slug := some "slg", action := none },
      Entry.sectionMark].getLast? = some Entry.sectionMark ∧
    Entry.sectionMark ∈
      [Entry.row
        { tag := "(untagged)", type := "manifest/list", platform := "unknown",
          status := some "Completed", downloads := 7, digest := some "sha256:abc",
          is_child := false, slug := some "slg", action := none },
       Entry.sectionMark]) :=
  c10_untagged_section_literal pkg0 none gRow
    [Entry.row
      { tag := "(untagged)", type := "manifest/list", platform := "unknown",
        status := some "Completed", downloads := 7, digest := some "sha256:abc",
        is_child := false, slug := some "slg", action := none },
     Entry.sectionMark]
    (some "slg") rfl

/-! ## C1: output formats -/

/-- C1 (code-bug evidence): at a collected result of one image with one
group holding one parent row, the table renders the row, the JSON output
carries the whole group structure, but the CSV writer aborts with an
AttributeError because it calls dict get on the group list itself, so the
CSV output does not include the rows the table renders. -/
theorem c1_csv_loses_rows :
    csvRender [("myapp", [[Entry.row sampleParent]])] = Except.error "AttributeError" ∧
    tableRows [[Entry.row sampleParent]] = [sampleParent] ∧
    jsonRender [("myapp", [[Entry.row sampleParent]])] = [("myapp", [[Entry.row sampleParent]])] :=
  ⟨rfl, rfl, rfl⟩
